import Mathlib

set_option linter.unusedVariables false

/-!
# Verification of the DCCS timeline module (src/src/index.ts)

A shallow embedding of the data model and core logic of the Dimensional
Change Card Sort (DCCS) jsPsych plugin: stimulus and trial records, the
fixed trial lists, the randomized mixed-trial generator
(`generateMixedTrials`), the response-scoring click handler installed by
`setupTrial` (with its once-only latch, feedback messages and timers),
and the per-phase accuracy computation of `createResults`.

Modelling conventions:
* JavaScript numbers that stay exact in the code paths of interest
  (counts, times, probabilities) are embedded as rationals `ℚ`.
* `Math.random()` is embedded as an explicit stream `rand : ℕ → ℚ` of
  successive draws; a valid stream satisfies `0 ≤ rand k < 1`.
  Iteration `i` of the generator loop consumes draws `2*i` (target
  selection) and `2*i + 1` (left/right swap), matching the two
  `Math.random()` calls per loop body.
* `setTimeout(f, d)` scheduled at absolute time `t` fires at `t + d`.
* Arithmetic in `createResults` is IEEE-754 binary64: each finite
  operation rounds its exact rational result to 53 significant bits,
  round to nearest, ties to even (`roundToDouble`), and the special
  values NaN and the infinities are carried by the small type `JsNum`.
-/

/-- `Stimulus` record from src/src/index.ts (interface Stimulus). -/
structure Stimulus where
  img : String
  name : String
  shape : String
  color : String
deriving DecidableEq, Repr

/-- `Trial` record from src/src/index.ts (interface Trial); `dimension`
is optional there, embedded as `Option String`. -/
structure Trial where
  target : Stimulus
  left : Stimulus
  right : Stimulus
  correct : Nat
  dimension : Option String := none
deriving DecidableEq, Repr

namespace STIMULI

/-- The fixed stimulus catalogue `STIMULI` from src/src/index.ts. -/
def brownRabbit : Stimulus :=
  ⟨"assets/brown_rabbit.svg", "brown rabbit", "rabbit", "brown"⟩

def whiteRabbit : Stimulus :=
  ⟨"assets/white_rabbit.svg", "white rabbit", "rabbit", "white"⟩

def brownBoat : Stimulus :=
  ⟨"assets/brown_boat.svg", "brown boat", "boat", "brown"⟩

def whiteBoat : Stimulus :=
  ⟨"assets/white_boat.svg", "white boat", "boat", "white"⟩

def blueBall : Stimulus :=
  ⟨"assets/blue_ball.svg", "blue ball", "ball", "blue"⟩

def orangeTruck : Stimulus :=
  ⟨"assets/orange_truck.svg", "orange truck", "truck", "orange"⟩

def blueTruck : Stimulus :=
  ⟨"assets/blue_truck.svg", "blue truck", "truck", "blue"⟩

def orangeBall : Stimulus :=
  ⟨"assets/orange_ball.svg", "orange ball", "ball", "orange"⟩

end STIMULI

open STIMULI

/-- Pool the mixed-trial generator draws targets from
(`testStimuli` local of `generateMixedTrials`). -/
def testStimuli : List Stimulus := [blueBall, orangeTruck, blueTruck, orangeBall]

/-- A random stream is valid when every draw lies in `[0, 1)`,
as `Math.random()` guarantees. -/
def validRand (rand : ℕ → ℚ) : Prop := ∀ k, 0 ≤ rand k ∧ rand k < 1

/-- Body of the `for` loop of `generateMixedTrials` at index `i`
(src/src/index.ts lines 205-227).  `Math.floor(Math.random() * 4)` is
`(⌊r * 4⌋).toNat` on the draw `r`; `choices.reverse()` is guarded by
`rand (2*i+1) > 0.5`; `correct` compares `choices[0]` to the target on
the attribute of the active dimension. -/
def mixedTrialAt (rand : ℕ → ℚ) (i : ℕ) : Trial :=
  let dimension := if i % 2 = 0 then "color" else "shape"
  let target := testStimuli.getD (⌊rand (2 * i) * 4⌋).toNat blueBall
  let choices :=
    if rand (2 * i + 1) > (0.5 : ℚ) then
      ([blueBall, orangeTruck] : List Stimulus).reverse
    else [blueBall, orangeTruck]
  let correct : ℕ :=
    if dimension = "color" then
      (if (choices.getD 0 blueBall).color = target.color then 0 else 1)
    else
      (if (choices.getD 0 blueBall).shape = target.shape then 0 else 1)
  { target := target
    left := choices.getD 0 blueBall
    right := choices.getD 1 blueBall
    correct := correct
    dimension := some dimension }

/-- `generateMixedTrials` (src/src/index.ts lines 201-231): push the
trial of the loop body for `i = 0 .. numTrials - 1`. -/
def generateMixedTrials (rand : ℕ → ℚ) (numTrials : ℕ) : List Trial :=
  (List.range numTrials).map (mixedTrialAt rand)

/-- `COLOR_PRACTICE_TRIALS` (src/src/index.ts lines 519-525). -/
def COLOR_PRACTICE_TRIALS : List Trial :=
  [ { target := brownRabbit, left := brownBoat, right := whiteRabbit, correct := 0 },
    { target := whiteBoat, left := brownBoat, right := whiteRabbit, correct := 1 },
    { target := brownBoat, left := brownBoat, right := whiteRabbit, correct := 0 },
    { target := whiteRabbit, left := brownBoat, right := whiteRabbit, correct := 1 },
    { target := brownRabbit, left := whiteRabbit, right := brownBoat, correct := 1 } ]

/-- `COLOR_TEST_TRIALS` (src/src/index.ts lines 527-533). -/
def COLOR_TEST_TRIALS : List Trial :=
  [ { target := blueTruck, left := blueBall, right := orangeTruck, correct := 0 },
    { target := orangeBall, left := blueBall, right := orangeTruck, correct := 1 },
    { target := blueBall, left := orangeTruck, right := blueBall, correct := 1 },
    { target := orangeTruck, left := blueBall, right := orangeTruck, correct := 1 },
    { target := blueTruck, left := orangeTruck, right := blueBall, correct := 1 } ]

/-- `SHAPE_TEST_TRIALS` (src/src/index.ts lines 535-541). -/
def SHAPE_TEST_TRIALS : List Trial :=
  [ { target := orangeBall, left := blueBall, right := orangeTruck, correct := 0 },
    { target := blueTruck, left := blueBall, right := orangeTruck, correct := 1 },
    { target := orangeTruck, left := orangeTruck, right := blueBall, correct := 0 },
    { target := blueBall, left := orangeTruck, right := blueBall, correct := 1 },
    { target := blueTruck, left := blueBall, right := orangeTruck, correct := 1 } ]

/-- Spec-side predicate: does choice `c` match target `t` on dimension
`dim` (the color attribute for "color", the shape attribute otherwise)? -/
def matchesOn (dim : String) (t c : Stimulus) : Bool :=
  if dim = "color" then t.color = c.color else t.shape = c.shape

/-- Spec-side well-posedness of a trial for dimension `dim`: exactly one
of left/right matches the target on `dim`, and `correct` is the index
(0 = left, 1 = right) of that matching choice. -/
def wellPosedB (dim : String) (t : Trial) : Bool :=
  (matchesOn dim t.target t.left && !matchesOn dim t.target t.right
      && decide (t.correct = 0))
  || (!matchesOn dim t.target t.left && matchesOn dim t.target t.right
      && decide (t.correct = 1))

/-- Placeholder trial used as the default of `List.getD` when indexing
trial lists; never the actual value at an in-range index. -/
def defaultTrial : Trial :=
  { target := blueBall, left := blueBall, right := blueBall, correct := 0 }

example : wellPosedB "color" (COLOR_PRACTICE_TRIALS.getD 0 defaultTrial) = true := by decide

example : (generateMixedTrials (fun _ => 0) 3).length = 3 := by decide

lemma generateMixedTrials_getD (rand : ℕ → ℚ) (n i : ℕ) (hi : i < n) :
    (generateMixedTrials rand n).getD i defaultTrial = mixedTrialAt rand i := by
  simp [generateMixedTrials, List.getD, List.getElem?_map, List.getElem?_range, hi]

lemma mixedTrialAt_wellPosed (rand : ℕ → ℚ) (hr : validRand rand) (i : ℕ) :
    wellPosedB ((mixedTrialAt rand i).dimension.getD "") (mixedTrialAt rand i) = true := by
  obtain ⟨h0, h1⟩ := hr (2 * i)
  have hA : 0 ≤ ⌊rand (2 * i) * 4⌋ := Int.floor_nonneg.mpr (by positivity)
  have hB : ⌊rand (2 * i) * 4⌋ < 4 := Int.floor_lt.mpr (by push_cast; linarith)
  simp only [mixedTrialAt]
  set k := ⌊rand (2 * i) * 4⌋ with hk
  by_cases hp : i % 2 = 0 <;> by_cases hs : rand (2 * i + 1) > (0.5 : ℚ) <;>
    simp only [hp, hs, if_true, if_false, ite_true, ite_false] <;>
    interval_cases k <;> decide

/-- Constant random stream drawing 0 forever; a valid stream. -/
def zeroRand : ℕ → ℚ := fun _ => 0

/-- Constant random stream drawing 0.5 forever, as in the fixed
random-source example of the spec; a valid stream. -/
def halfRand : ℕ → ℚ := fun _ => 0.5

/-- C1: every trial is well-posed for its active dimension — in each of
the fixed lists `COLOR_PRACTICE_TRIALS` / `COLOR_TEST_TRIALS` (dimension
color) and `SHAPE_TEST_TRIALS` (dimension shape), and in every trial
produced by `generateMixedTrials` under any valid random source, exactly
one of left/right matches the target on that dimension and `correct` is
the index of the matching choice. -/
theorem C1_trials_wellPosed :
    (∀ t ∈ COLOR_PRACTICE_TRIALS, wellPosedB "color" t = true) ∧
    (∀ t ∈ COLOR_TEST_TRIALS, wellPosedB "color" t = true) ∧
    (∀ t ∈ SHAPE_TEST_TRIALS, wellPosedB "shape" t = true) ∧
    (∀ rand : ℕ → ℚ, validRand rand → ∀ n i : ℕ, i < n →
      wellPosedB (((generateMixedTrials rand n).getD i defaultTrial).dimension.getD "")
        ((generateMixedTrials rand n).getD i defaultTrial) = true) := by
  refine ⟨by decide, by decide, by decide, ?_⟩
  intro rand hr n i hi
  rw [generateMixedTrials_getD rand n i hi]
  exact mixedTrialAt_wellPosed rand hr i

/-- Witness for C1 at concrete inputs: the zero stream is valid, the
first practice trial is well-posed, and so is the mixed trial generated
at index 0 of a 1-trial run. -/
theorem C1_trials_wellPosed_witness :
    validRand zeroRand ∧
    wellPosedB "color" (COLOR_PRACTICE_TRIALS.getD 0 defaultTrial) = true ∧
    wellPosedB (((generateMixedTrials zeroRand 1).getD 0 defaultTrial).dimension.getD "")
      ((generateMixedTrials zeroRand 1).getD 0 defaultTrial) = true := by
  have hv : validRand zeroRand := fun k => ⟨le_refl 0, by norm_num [zeroRand]⟩
  exact ⟨hv, C1_trials_wellPosed.1 _ (by decide),
    C1_trials_wellPosed.2.2.2 zeroRand hv 1 0 (by norm_num)⟩

/-- C4: for every random source and every `n`, `generateMixedTrials`
returns exactly `n` trials, and `n = 0` yields the empty list. -/
theorem C4_generate_length :
    (∀ (rand : ℕ → ℚ) (n : ℕ), (generateMixedTrials rand n).length = n) ∧
    (∀ rand : ℕ → ℚ, generateMixedTrials rand 0 = []) := by
  exact ⟨fun rand n => by simp [generateMixedTrials],
    fun rand => by simp [generateMixedTrials]⟩

/-- C5: for every random source, trial `i` of `generateMixedTrials rand n`
(`i < n`) has dimension "color" when `i` is even and "shape" when `i`
is odd. -/
theorem C5_dimension_parity (rand : ℕ → ℚ) (n i : ℕ) (hi : i < n) :
    ((generateMixedTrials rand n).getD i defaultTrial).dimension
      = some (if i % 2 = 0 then "color" else "shape") := by
  rw [generateMixedTrials_getD rand n i hi]
  by_cases hp : i % 2 = 0 <;> simp [mixedTrialAt, hp]

/-- Witness for C5 at concrete inputs: trials 0 and 1 of a 2-trial run. -/
theorem C5_dimension_parity_witness :
    ((generateMixedTrials zeroRand 2).getD 0 defaultTrial).dimension = some "color" ∧
    ((generateMixedTrials zeroRand 2).getD 1 defaultTrial).dimension = some "shape" := by
  constructor
  · simpa using C5_dimension_parity zeroRand 2 0 (by norm_num)
  · simpa using C5_dimension_parity zeroRand 2 1 (by norm_num)

/-- C7: with a random source returning exactly 0.5 on every draw,
`generateMixedTrials 2` yields a color trial then a shape trial, and
because `0.5 > 0.5` is false the base choice order is kept: left is the
blue ball, right the orange truck, in both trials (the target drawn at
`⌊0.5 * 4⌋ = 2` is the blue truck). -/
theorem C7_half_random_scenario :
    generateMixedTrials halfRand 2 =
      [ { target := blueTruck, left := blueBall, right := orangeTruck,
          correct := 0, dimension := some "color" },
        { target := blueTruck, left := blueBall, right := orangeTruck,
          correct := 1, dimension := some "shape" } ] := by
  norm_num [generateMixedTrials, List.range_succ, mixedTrialAt, halfRand,
    testStimuli, Int.toNat, blueBall, blueTruck, orangeTruck, orangeBall]
  all_goals decide

/-- Payload passed to `jsPsych.finishTrial` (src/src/index.ts lines
175-179 and 182-186). -/
structure FinishPayload where
  response : ℕ
  correct : Bool
  rt : ℚ
deriving DecidableEq, Repr

/-- Feedback-completion delay (line 180): 1500 ms after a correct
response, 2500 ms after an incorrect one. -/
def feedbackDelay (correct : Bool) : ℚ := if correct then 1500 else 2500

/-- The payload `finishTrial` eventually receives for the first accepted
click, as a function of the trial, the feedback flag, the absolute
`startTime` taken at setup (line 149) and the absolute time of the
click.  `correct` is `cardIndex === trial.correct` (line 157).  On the
no-feedback path (lines 182-186) `rt = performance.now() - startTime`
is computed at the click.  On the feedback path (lines 174-180) the
payload is built inside a `setTimeout` callback that fires
`feedbackDelay` ms after the click, and `performance.now() - startTime`
is evaluated then, so `rt = clickTime + feedbackDelay - startTime`. -/
def clickResult (trial : Trial) (withFeedback : Bool) (startTime clickTime : ℚ)
    (cardIndex : ℕ) : FinishPayload :=
  let correct := decide (cardIndex = trial.correct)
  if withFeedback then
    { response := cardIndex, correct := correct,
      rt := clickTime + feedbackDelay correct - startTime }
  else
    { response := cardIndex, correct := correct, rt := clickTime - startTime }

/-- Observable state of one `setupTrial` instance while clicks arrive:
the `responded` latch (line 150) and the ordered list of payloads with
which `jsPsych.finishTrial` is (eventually) invoked. -/
structure ClickState where
  responded : Bool
  finished : List FinishPayload
deriving DecidableEq, Repr

/-- State when `setupTrial` returns: latch clear, nothing reported. -/
def initialClickState : ClickState := { responded := false, finished := [] }

/-- The click listener of src/src/index.ts lines 153-188, processing a
click on card `c.1` at absolute time `c.2`: when the latch is set the
click is ignored (line 154); otherwise the latch is set and exactly one
`finishTrial` invocation with the `clickResult` payload follows. -/
def handleClick (trial : Trial) (withFeedback : Bool) (startTime : ℚ)
    (s : ClickState) (c : ℕ × ℚ) : ClickState :=
  if s.responded then s
  else { responded := true,
         finished := s.finished ++ [clickResult trial withFeedback startTime c.2 c.1] }

/-- Process a sequence of click events against one trial instance. -/
def runClicks (trial : Trial) (withFeedback : Bool) (startTime : ℚ)
    (clicks : List (ℕ × ℚ)) : ClickState :=
  clicks.foldl (handleClick trial withFeedback startTime) initialClickState

lemma foldl_handleClick_of_responded (trial : Trial) (wf : Bool) (t0 : ℚ)
    (s : ClickState) (hs : s.responded = true) (l : List (ℕ × ℚ)) :
    l.foldl (handleClick trial wf t0) s = s := by
  induction l with
  | nil => rfl
  | cons c rest ih => simpa [handleClick, hs] using ih

/-- C3: response acceptance is at-most-once per trial instance — over
any sequence of clicks, `finishTrial` is invoked at most once, the run
on `c :: rest` equals the run on `[c]` alone (every click after the
first is a no-op that changes nothing), and the one reported payload
comes from the first click. -/
theorem C3_at_most_once :
    (∀ (trial : Trial) (wf : Bool) (t0 : ℚ) (clicks : List (ℕ × ℚ)),
      (runClicks trial wf t0 clicks).finished.length ≤ 1) ∧
    (∀ (trial : Trial) (wf : Bool) (t0 : ℚ) (c : ℕ × ℚ) (rest : List (ℕ × ℚ)),
      runClicks trial wf t0 (c :: rest) = runClicks trial wf t0 [c] ∧
      (runClicks trial wf t0 (c :: rest)).finished
        = [clickResult trial wf t0 c.2 c.1]) := by
  have key : ∀ (trial : Trial) (wf : Bool) (t0 : ℚ) (c : ℕ × ℚ) (rest : List (ℕ × ℚ)),
      runClicks trial wf t0 (c :: rest)
        = { responded := true, finished := [clickResult trial wf t0 c.2 c.1] } := by
    intro trial wf t0 c rest
    show (c :: rest).foldl (handleClick trial wf t0) initialClickState = _
    rw [List.foldl_cons]
    have h1 : handleClick trial wf t0 initialClickState c
        = { responded := true, finished := [clickResult trial wf t0 c.2 c.1] } := by
      simp [handleClick, initialClickState]
    rw [h1]
    exact foldl_handleClick_of_responded trial wf t0 _ rfl rest
  constructor
  · intro trial wf t0 clicks
    cases clicks with
    | nil => simp [runClicks, initialClickState]
    | cons c rest => rw [key] ; simp
  · intro trial wf t0 c rest
    rw [key, key]
    exact ⟨rfl, rfl⟩

/-- Counterexample to C2 as stated: on the feedback path the reported
`rt` is not the elapsed time from trial setup to the click.  With
`startTime = 0`, a correct click (index 0 on `defaultTrial`, whose
`correct` field is 0) at time 1000 reports `rt = 2500`, not 1000,
because the payload is built when the 1500 ms feedback timer fires. -/
theorem C2_rt_counterexample :
    (clickResult defaultTrial true 0 1000 0).rt ≠ 1000 - 0 := by
  norm_num [clickResult, defaultTrial, feedbackDelay]

/-- C2 (amended): every reported payload has
`correct = (clickedIndex == trial.correct)` and `response = clickedIndex`;
`rt` equals the elapsed time from setup to the click on the no-feedback
path, while on the feedback path it equals that elapsed time plus the
feedback delay (1500 ms if correct, 2500 ms if not). -/
theorem C2_click_scoring (trial : Trial) (wf : Bool) (t0 tc : ℚ) (i : ℕ) :
    (clickResult trial wf t0 tc i).correct = decide (i = trial.correct) ∧
    (clickResult trial wf t0 tc i).response = i ∧
    (wf = false → (clickResult trial wf t0 tc i).rt = tc - t0) ∧
    (wf = true → (clickResult trial wf t0 tc i).rt
        = (tc - t0) + feedbackDelay (decide (i = trial.correct))) := by
  cases wf <;> refine ⟨by simp [clickResult], by simp [clickResult], ?_, ?_⟩ <;>
    · simp [clickResult]
      try ring

/-- Witness for C2 (amended) at concrete inputs: an incorrect
no-feedback click at time 700 reports `rt = 700`, and a correct
feedback-path click at time 700 reports `rt = 700 + 1500`. -/
theorem C2_click_scoring_witness :
    (clickResult defaultTrial false 0 700 1).correct = false ∧
    (clickResult defaultTrial false 0 700 1).rt = 700 - 0 ∧
    (clickResult defaultTrial true 0 700 0).rt
      = (700 - 0) + feedbackDelay (decide ((0 : ℕ) = defaultTrial.correct)) := by
  refine ⟨?_, (C2_click_scoring defaultTrial false 0 700 1).2.2.1 rfl,
    (C2_click_scoring defaultTrial true 0 700 0).2.2.2 rfl⟩
  have h := (C2_click_scoring defaultTrial false 0 700 1).1
  rw [h] ; decide

/-- The 5-second stalled-user reminder callback (src/src/index.ts lines
193-197), as a function of the observable state at the moment the timer
fires: the `responded` latch and the value of `jsPsych.getCurrentTrial()`.
It plays the prompt only when no response has been accepted and the
accessor is non-null; `some` is the audio text played, `none` a no-op. -/
def reminderFire (responded : Bool) (currentTrial : Option Trial) : Option String :=
  if !responded && currentTrial.isSome then some "Choose one of the pictures."
  else none

/-- The feedback-completion callback (src/src/index.ts lines 174-180) as
a function of the same observable state: the callback in the source
reads neither the latch nor the accessor, so the embedding takes both
and ignores them, always invoking `finishTrial` with its payload
(`some` is the payload passed to `finishTrial`, `none` would be a no-op). -/
def feedbackTimerFire (responded : Bool) (currentTrial : Option Trial)
    (payload : FinishPayload) : Option FinishPayload :=
  some payload

/-- Counterexample to C8 as stated: the feedback-completion timer does
not check state before acting.  Fired in a state where a response has
already been accepted and the current-trial accessor returns null, it
still invokes `finishTrial` instead of doing nothing. -/
theorem C8_feedback_timer_counterexample :
    feedbackTimerFire true none { response := 0, correct := true, rt := 1500 }
      ≠ none := by
  simp [feedbackTimerFire]

/-- C8 (amended): the 5-second reminder performs its effect only when
the `responded` latch is clear and the current-trial accessor is
non-null — if a response has occurred or the accessor returns null it
fires but changes nothing; the feedback-completion timer, by contrast,
invokes `finishTrial` unconditionally whatever the state. -/
theorem C8_timer_guards :
    (∀ cur : Option Trial, reminderFire true cur = none) ∧
    (∀ r : Bool, reminderFire r none = none) ∧
    (∀ cur : Option Trial, cur.isSome = true →
      reminderFire false cur = some "Choose one of the pictures.") ∧
    (∀ (r : Bool) (cur : Option Trial) (p : FinishPayload),
      feedbackTimerFire r cur p = some p) := by
  refine ⟨fun cur => by simp [reminderFire], fun r => by simp [reminderFire],
    fun cur h => by simp [reminderFire, h], fun r cur p => rfl⟩

/-- Witness for C8 (amended) at a concrete input: with the latch clear
and a present current trial, the reminder plays the prompt. -/
theorem C8_timer_guards_witness :
    reminderFire false (some defaultTrial) = some "Choose one of the pictures." :=
  C8_timer_guards.2.2.1 (some defaultTrial) rfl

/-- Feedback text written to the `#feedback` div by the click handler
(src/src/index.ts lines 162-168): a fixed string for each correctness
value.  The `dimension` parameter of `setupTrial` is in scope there but
unused by this branch; the embedding takes it and ignores it. -/
def feedbackText (dimension : String) (correct : Bool) : String :=
  if correct then "That\x27s right!" else "This is the same color."

/-- Audio spoken alongside the feedback (src/src/index.ts lines 165-169),
likewise independent of `dimension`. -/
def feedbackSpeech (dimension : String) (correct : Bool) : String :=
  if correct then "That\x27s right!"
  else "This is the same color, so you should choose this picture."

/-- C10: on feedback-enabled trials an incorrect response always shows
the text "This is the same color." and speaks the color-phrased
correction, whatever the dimension of the trial — the message is the
same for any two dimensions — while a correct response always shows
"That\x27s right!". -/
theorem C10_feedback_ignores_dimension (d e : String) :
    feedbackText d false = "This is the same color." ∧
    feedbackSpeech d false
      = "This is the same color, so you should choose this picture." ∧
    feedbackText d false = feedbackText e false ∧
    feedbackSpeech d false = feedbackSpeech e false ∧
    feedbackText d true = "That\x27s right!" := by
  exact ⟨rfl, rfl, rfl, rfl, rfl⟩

/-- Round a rational to the nearest integer, ties to even: the IEEE-754
default rounding direction applied by every JavaScript arithmetic
operator. -/
def rne (x : ℚ) : ℤ :=
  if x - ⌊x⌋ < 1 / 2 then ⌊x⌋
  else if 1 / 2 < x - ⌊x⌋ then ⌊x⌋ + 1
  else if ⌊x⌋ % 2 = 0 then ⌊x⌋ else ⌊x⌋ + 1

/-- Correctly rounded conversion of an exact rational to the IEEE-754
binary64 value nearest to it (expressed as the rational that value
denotes): the significand is rounded to 53 bits at the binade exponent
`Int.log 2 |q|`, round to nearest, ties to even.  The subnormal and
overflow thresholds lie far outside the magnitudes arising in
`createResults` and are not modelled. -/
def roundToDouble (q : ℚ) : ℚ :=
  if q = 0 then 0
  else
    (if q < 0 then -1 else 1) * rne (|q| * (2 : ℚ) ^ (52 - Int.log 2 |q|))
      * (2 : ℚ) ^ (Int.log 2 |q| - 52)

/-- Fragment of the IEEE-754 double values reachable in `createResults`:
finite values are carried as the rationals they denote, together with
NaN and the two infinities that division by zero can produce. -/
inductive JsNum where
  | nan : JsNum
  | inf : JsNum
  | negInf : JsNum
  | num (q : ℚ) : JsNum
deriving DecidableEq, Repr

/-- JavaScript division on `JsNum`: `0 / 0` is NaN, `x / 0` is signed
Infinity for finite `x ≠ 0`, and a finite quotient is the correctly
rounded binary64 value of the exact quotient; a NaN operand propagates.
Divisions with an infinite operand do not occur in the embedded
expressions and are collapsed to NaN. -/
def jsDiv : JsNum → JsNum → JsNum
  | JsNum.num x, JsNum.num y =>
      if y = 0 then
        (if x = 0 then JsNum.nan else if 0 < x then JsNum.inf else JsNum.negInf)
      else JsNum.num (roundToDouble (x / y))
  | _, _ => JsNum.nan

/-- JavaScript multiplication on `JsNum`: a finite product is the
correctly rounded binary64 value of the exact product; NaN propagates;
an infinity times a finite value follows the sign (times zero is NaN). -/
def jsMul : JsNum → JsNum → JsNum
  | JsNum.num x, JsNum.num y => JsNum.num (roundToDouble (x * y))
  | JsNum.nan, _ => JsNum.nan
  | _, JsNum.nan => JsNum.nan
  | JsNum.inf, JsNum.inf => JsNum.inf
  | JsNum.inf, JsNum.negInf => JsNum.negInf
  | JsNum.negInf, JsNum.inf => JsNum.negInf
  | JsNum.negInf, JsNum.negInf => JsNum.inf
  | JsNum.inf, JsNum.num y =>
      if 0 < y then JsNum.inf else if y < 0 then JsNum.negInf else JsNum.nan
  | JsNum.num x, JsNum.inf =>
      if 0 < x then JsNum.inf else if x < 0 then JsNum.negInf else JsNum.nan
  | JsNum.negInf, JsNum.num y =>
      if 0 < y then JsNum.negInf else if y < 0 then JsNum.inf else JsNum.nan
  | JsNum.num x, JsNum.negInf =>
      if 0 < x then JsNum.negInf else if x < 0 then JsNum.inf else JsNum.nan

/-- `trials.filter(\x7bcorrect: true\x7d).count()` of `createResults`,
over the recorded `correct` flags of one phase. -/
def countCorrect (rs : List Bool) : ℕ := (rs.filter (fun b => b = true)).length

/-- Per-phase accuracy value of `createResults` (src/src/index.ts lines
475-477): correct count divided by total count, times 100, in
JavaScript arithmetic. -/
def phaseAccuracy (rs : List Bool) : JsNum :=
  jsMul (jsDiv (JsNum.num (countCorrect rs)) (JsNum.num rs.length)) (JsNum.num 100)

/-- `Number.prototype.toFixed(0)` for the values occurring here
(src/src/index.ts lines 495-505): a finite value rounds to the nearest
integer, ties to the larger integer per ECMA-262; NaN and the
infinities render as the strings "NaN" / "Infinity", embedded `none`. -/
def toFixed0 : JsNum → Option ℤ
  | JsNum.num q => some ⌊q + 1 / 2⌋
  | _ => none

lemma abs_rne_sub_le (x : ℚ) : |(rne x : ℚ) - x| ≤ 1 / 2 := by
  have hf := Int.floor_le x
  have hc := Int.lt_floor_add_one x
  unfold rne
  split_ifs with h1 h2 h3 <;> rw [abs_le] <;> constructor <;> push_cast <;> linarith

lemma log2_eq {q : ℚ} {k : ℤ} (hq : 0 < q)
    (h1 : (2 : ℚ) ^ k ≤ q) (h2 : q < (2 : ℚ) ^ (k + 1)) : Int.log 2 q = k := by
  have hb : 1 < 2 := by norm_num
  have hle : k ≤ Int.log 2 q := by
    rw [← Int.zpow_le_iff_le_log hb hq]
    exact_mod_cast h1
  have hlt : Int.log 2 q < k + 1 := by
    rw [← Int.lt_zpow_iff_log_lt hb hq]
    exact_mod_cast h2
  omega

lemma roundToDouble_err {q : ℚ} (hq : 0 ≤ q) : |roundToDouble q - q| ≤ q / 2 ^ 53 := by
  rcases eq_or_lt_of_le hq with h | h
  · simp [roundToDouble, ← h]
  · have habs : |q| = q := abs_of_pos h
    have hk : ((2 : ℕ) : ℚ) ^ Int.log 2 q ≤ q := Int.zpow_log_le_self (by norm_num) h
    have hk2 : (2 : ℚ) ^ Int.log 2 q ≤ q := by exact_mod_cast hk
    unfold roundToDouble
    rw [if_neg (ne_of_gt h), if_neg (not_lt.mpr (le_of_lt h)), habs, one_mul]
    set k := Int.log 2 q with hkdef
    set s := q * (2 : ℚ) ^ (52 - k) with hsdef
    have hpow : (2 : ℚ) ^ (52 - k) * (2 : ℚ) ^ (k - 52) = 1 := by
      rw [← zpow_add₀ (by norm_num : (2 : ℚ) ≠ 0)]
      norm_num
    have hqs : s * (2 : ℚ) ^ (k - 52) = q := by
      rw [hsdef, mul_assoc, hpow, mul_one]
    have herr := abs_rne_sub_le s
    have hpos : (0 : ℚ) < (2 : ℚ) ^ (k - 52) := by positivity
    calc |(rne s : ℚ) * (2 : ℚ) ^ (k - 52) - q|
        = |((rne s : ℚ) - s) * (2 : ℚ) ^ (k - 52)| := by rw [sub_mul, hqs]
      _ = |(rne s : ℚ) - s| * (2 : ℚ) ^ (k - 52) := by
          rw [abs_mul, abs_of_pos hpos]
      _ ≤ (1 / 2) * (2 : ℚ) ^ (k - 52) := by
          exact mul_le_mul_of_nonneg_right herr (le_of_lt hpos)
      _ = (2 : ℚ) ^ k / 2 ^ 53 := by
          rw [zpow_sub₀ (by norm_num : (2 : ℚ) ≠ 0)]
          norm_num
          ring
      _ ≤ q / 2 ^ 53 := by gcongr

lemma roundToDouble_nonneg {q : ℚ} (hq : 0 ≤ q) : 0 ≤ roundToDouble q := by
  have h := roundToDouble_err hq
  rw [abs_le] at h
  nlinarith [h.1, h.2, hq]

lemma rne_of_floor_lt {x : ℚ} {f : ℤ} (hf : ⌊x⌋ = f) (h : x - f < 1 / 2) :
    rne x = f := by
  unfold rne
  rw [hf, if_pos h]

/-- The binary64 value of `23 / 40` (the double printed `0.575`,
which is slightly below the exact 0.575). -/
lemma roundToDouble_23_40 : roundToDouble ((23 : ℚ) / 40) = 5179139571476070 / 2 ^ 53 := by
  have hlog : Int.log 2 |(23 : ℚ) / 40| = -1 := by
    rw [abs_of_pos (by norm_num)]
    apply log2_eq (by norm_num) (by norm_num) (by norm_num)
  unfold roundToDouble
  rw [if_neg (by norm_num), if_neg (by norm_num), hlog, abs_of_pos (by norm_num)]
  have hrne : rne ((23 : ℚ) / 40 * (2 : ℚ) ^ ((52 : ℤ) - (-1))) = 5179139571476070 := by
    apply rne_of_floor_lt
    · norm_num
    · norm_num
  norm_num at hrne ⊢
  rw [hrne]
  norm_num

/-- The binary64 product of that value with 100: the double printed
`57.49999999999999`, strictly below 57.5. -/
lemma roundToDouble_2340_100 :
    roundToDouble ((5179139571476070 / 2 ^ 53 : ℚ) * 100) = 8092405580431359 / 2 ^ 47 := by
  have hlog : Int.log 2 |(5179139571476070 / 2 ^ 53 : ℚ) * 100| = 5 := by
    rw [abs_of_pos (by norm_num)]
    apply log2_eq (by norm_num) (by norm_num) (by norm_num)
  unfold roundToDouble
  rw [if_neg (by norm_num), if_neg (by norm_num), hlog, abs_of_pos (by norm_num)]
  have hrne : rne ((5179139571476070 / 2 ^ 53 : ℚ) * 100 * (2 : ℚ) ^ ((52 : ℤ) - 5))
      = 8092405580431359 := by
    apply rne_of_floor_lt
    · norm_num
    · norm_num
  rw [hrne]
  norm_num

/-- A phase outcome reachable with `createTimeline(\x7bmixedTrials: 40\x7d)`:
23 correct results of 40 recorded. -/
def mixedResults2340 : List Bool := List.replicate 23 true ++ List.replicate 17 false

/-- Counterexample to C6 as stated: with 23 correct of 40 recorded
results the exact percentage is 57.5, whose nearest integer is 58
(ties to the larger, as `toFixed` rounds), but the program computes
`23/40*100` in binary64, obtaining 57.49999999999999, and displays 57. -/
theorem C6_rounding_counterexample :
    toFixed0 (phaseAccuracy mixedResults2340)
      ≠ some (round ((countCorrect mixedResults2340 : ℚ)
          / (mixedResults2340.length : ℚ) * 100)) := by
  have hc : countCorrect mixedResults2340 = 23 := by decide
  have hl : mixedResults2340.length = 40 := by decide
  have hacc : phaseAccuracy mixedResults2340
      = JsNum.num (roundToDouble (roundToDouble ((23 : ℚ) / 40) * 100)) := by
    simp only [phaseAccuracy, hc, hl, jsDiv, jsMul]
    norm_num
  rw [hacc, hc, hl, roundToDouble_23_40, roundToDouble_2340_100]
  simp only [toFixed0]
  rw [round_eq]
  norm_num

lemma accuracy_floor_eq_round (c t : ℕ) (h1 : 0 < t) (h2 : t ≤ 2 ^ 40) (hct : c ≤ t)
    (h3 : ∀ m : ℤ, ((c : ℚ) / t) * 100 ≠ m + 1 / 2) :
    ⌊roundToDouble (roundToDouble ((c : ℚ) / t) * 100) + 1 / 2⌋
      = round ((c : ℚ) / t * 100) := by
  have htQ : (0 : ℚ) < t := by exact_mod_cast h1
  set u : ℚ := (c : ℚ) / t with hu
  have hu0 : 0 ≤ u := by positivity
  have hu1 : u ≤ 1 := by rw [hu, div_le_one htQ]; exact_mod_cast hct
  set a := roundToDouble u with ha
  have e1 := roundToDouble_err hu0
  have ha0 : 0 ≤ a := roundToDouble_nonneg hu0
  have ha100 : 0 ≤ a * 100 := by positivity
  set w := roundToDouble (a * 100) with hw
  have e2 := roundToDouble_err ha100
  rw [abs_le] at e1 e2
  have hwv : |w - u * 100| ≤ 1 / 2 ^ 44 := by
    rw [abs_le]
    constructor <;> nlinarith [e1.1, e1.2, e2.1, e2.2, hu0, hu1]
  set v : ℚ := u * 100 with hv
  have key : ∀ m : ℤ, 1 / 2 ^ 41 ≤ |v - ((m : ℚ) + 1 / 2)| := by
    intro m
    have hne := h3 m
    have hveq : v - ((m : ℚ) + 1 / 2)
        = ((200 * (c : ℤ) - (2 * m + 1) * (t : ℤ) : ℤ) : ℚ) / (2 * (t : ℚ)) := by
      rw [hv, hu]
      push_cast
      field_simp
      ring
    have hdne : (200 * (c : ℤ) - (2 * m + 1) * (t : ℤ)) ≠ 0 := by
      intro h0
      apply hne
      have hz : v - ((m : ℚ) + 1 / 2) = 0 := by
        rw [hveq, h0]
        norm_num
      rw [hv, hu] at hz ⊢
      linarith
    have hdabs : (1 : ℚ) ≤ |((200 * (c : ℤ) - (2 * m + 1) * (t : ℤ) : ℤ) : ℚ)| := by
      rw [← Int.cast_abs]
      exact_mod_cast Int.one_le_abs hdne
    rw [hveq, abs_div, abs_of_pos (by positivity : (0 : ℚ) < 2 * (t : ℚ))]
    have ht40 : (t : ℚ) ≤ 2 ^ 40 := by exact_mod_cast h2
    calc (1 : ℚ) / 2 ^ 41 ≤ 1 / (2 * (t : ℚ)) := by
          apply one_div_le_one_div_of_le (by positivity)
          nlinarith
      _ ≤ |((200 * (c : ℤ) - (2 * m + 1) * (t : ℤ) : ℤ) : ℚ)| / (2 * (t : ℚ)) := by
          gcongr
  have hnv : round v = ⌊v + 1 / 2⌋ := round_eq v
  have hb1 : ((round v : ℤ) : ℚ) ≤ v + 1 / 2 := by
    rw [hnv]
    exact Int.floor_le _
  have hb2 : v + 1 / 2 < ((round v : ℤ) : ℚ) + 1 := by
    rw [hnv]
    exact Int.lt_floor_add_one _
  have kup := key (round v)
  have kdn := key (round v - 1)
  have hup : v ≤ ((round v : ℤ) : ℚ) + 1 / 2 - 1 / 2 ^ 41 := by
    rcases abs_cases (v - (((round v : ℤ) : ℚ) + 1 / 2)) with ⟨he, hsgn⟩ | ⟨he, hsgn⟩
    · linarith [kup, he.symm.le]
    · rw [he] at kup
      linarith
  have hdn : ((round v : ℤ) : ℚ) - 1 / 2 + 1 / 2 ^ 41 ≤ v := by
    have hcast : (((round v - 1 : ℤ)) : ℚ) + 1 / 2 = ((round v : ℤ) : ℚ) - 1 / 2 := by
      push_cast
      ring
    rw [hcast] at kdn
    rcases abs_cases (v - (((round v : ℤ) : ℚ) - 1 / 2)) with ⟨he, hsgn⟩ | ⟨he, hsgn⟩
    · rw [he] at kdn
      linarith
    · linarith
  rw [abs_le] at hwv
  have hsmall : (1 : ℚ) / 2 ^ 44 < 1 / 2 ^ 41 := by norm_num
  rw [Int.floor_eq_iff]
  refine ⟨by linarith [hwv.1], ?_⟩
  linarith [hwv.2]

/-- C6 (amended): for a phase with at least one and at most 2^40
recorded results whose exact percentage of correct answers is not an
exact half-integer, the displayed accuracy is the correct count divided
by the total count, times 100, rounded to the nearest integer.  At
half-integer ties the binary64 arithmetic of the program can land just
below the tie and display the lower integer instead
(`C6_rounding_counterexample`). -/
theorem C6_phase_accuracy (rs : List Bool) (h1 : 0 < rs.length)
    (h2 : rs.length ≤ 2 ^ 40)
    (h3 : ∀ m : ℤ, ((countCorrect rs : ℚ) / (rs.length : ℚ)) * 100 ≠ m + 1 / 2) :
    toFixed0 (phaseAccuracy rs)
      = some (round ((countCorrect rs : ℚ) / (rs.length : ℚ) * 100)) := by
  have hct : countCorrect rs ≤ rs.length := List.length_filter_le _ _
  have hne : (rs.length : ℚ) ≠ 0 := Nat.cast_ne_zero.mpr (Nat.pos_iff_ne_zero.mp h1)
  have hacc : phaseAccuracy rs
      = JsNum.num (roundToDouble (roundToDouble ((countCorrect rs : ℚ) / rs.length) * 100)) := by
    simp only [phaseAccuracy, jsDiv, jsMul]
    rw [if_neg hne]
  rw [hacc]
  simp only [toFixed0]
  exact congrArg some (accuracy_floor_eq_round (countCorrect rs) rs.length h1 h2 hct h3)

/-- Witness for C6 (amended) at a concrete input: a phase with 5
recorded results of which 4 are correct displays 80 (80 is not a
half-integer tie, so binary64 and exact rounding agree). -/
theorem C6_phase_accuracy_witness :
    toFixed0 (phaseAccuracy [true, true, true, true, false]) = some 80 := by
  have hc : countCorrect [true, true, true, true, false] = 4 := by decide
  have h3 : ∀ m : ℤ, ((countCorrect [true, true, true, true, false] : ℚ)
      / (([true, true, true, true, false] : List Bool).length : ℚ)) * 100 ≠ m + 1 / 2 := by
    intro m hm
    rw [hc] at hm
    norm_num at hm
    have h2m : (159 : ℚ) = 2 * (m : ℚ) := by linarith
    have h2z : (159 : ℤ) = 2 * m := by exact_mod_cast h2m
    omega
  have h := C6_phase_accuracy [true, true, true, true, false] (by decide) (by norm_num) h3
  rw [h, hc]
  rw [round_eq]
  norm_num

/-- C9: a phase with zero recorded results divides 0 by 0, so the
accuracy value is NaN and `toFixed(0)` renders "NaN" rather than a
number. -/
theorem C9_empty_phase_nan :
    phaseAccuracy [] = JsNum.nan ∧ toFixed0 (phaseAccuracy []) = none := by
  constructor <;> rfl
